import Mathlib

/-!
Shallow embedding of the homebrew-canton release-automation scripts.

The embedded code comes from:
  * `scripts/generate-version-manifest.ts` — manifest data model, `loadManifest`,
    `saveManifest`, `getAllCantonVersions` (release fetch / filter / sort) and the
    `generateManifest` synchronization loop;
  * `scripts/verify-sha256.ts` — the `verifyHashes` loop and its exit code;
  * `scripts/generate-versioned-formula.ts` — `sanitizeVersionForClass`,
    `generateFormula`, tag normalization and the versioned-formula workflow.

Modelling conventions:
  * A JavaScript object used as a string-keyed map (`manifest.versions`) is an
    association list `List (String × VersionInfo)` in insertion order: JS object
    key order for string keys is insertion order, assignment to an existing key
    keeps its position, assignment to a new key appends.
  * A JSON string field that can be absent is `Option String`; JS truthiness of
    such a field (`obj?.field` used as a condition) is "present and non-empty".
  * Network and cryptography effects (`fetch` + `createHash` inside
    `calculateSha256`) are abstracted as an oracle `hash : String → Option String`
    mapping a download URL to `some digest`, or `none` when the download throws.
    Likewise `new Date(s).getTime()` is an oracle `time : String → Int`, file
    reads are `Option String` (`none` = the read threw) and `JSON.parse` of the
    manifest file is an oracle `parse : String → Option VersionManifest`
    (`none` = parse threw).
  * Saving a file is recorded by appending the written value to a `saves` list,
    so persistence across the run stays observable.
-/

namespace Canton

/-- One entry of `canton-versions.json` (`VersionManifest.versions[damlTag]` in
`generate-version-manifest.ts`).  `sha256` is `Option String`: the JSON on disk
may lack the field even though the TS interface declares it. -/
structure VersionInfo where
  canton_version : String
  download_url : String
  sha256 : Option String
  is_prerelease : Bool
  published_at : String
deriving Repr, DecidableEq

/-- The persisted manifest `canton-versions.json` (`VersionManifest` in
`generate-version-manifest.ts`): `updated_at` plus the tag-keyed entry map,
kept in JS-object insertion order. -/
structure VersionManifest where
  updated_at : String
  versions : List (String × VersionInfo)
deriving Repr, DecidableEq

/-- Lookup `versions[tag]` in a JS object modelled as an association list:
the first binding of the key, if any. -/
def getVersion (vs : List (String × VersionInfo)) (tag : String) : Option VersionInfo :=
  (vs.find? (fun p => p.1 = tag)).map Prod.snd

/-- Assignment `versions[tag] = info` on a JS object: an existing key keeps its
position and gets the new value, a new key is appended at the end. -/
def setVersion (vs : List (String × VersionInfo)) (tag : String) (info : VersionInfo) :
    List (String × VersionInfo) :=
  if vs.any (fun p => p.1 = tag) then
    vs.map (fun p => if p.1 = tag then (tag, info) else p)
  else
    vs ++ [(tag, info)]

/-- JS truthiness of an optional string field: `undefined` and `""` are falsy,
every other string is truthy. -/
def strTruthy : Option String → Bool
  | none => false
  | some s => s ≠ ""

/-- The cached-check of the sync loop
(`manifest.versions[release.damlTag]?.sha256` used as a condition in
`generateManifest`): the entry exists and its `sha256` field is truthy. -/
def hasCachedDigest (m : VersionManifest) (tag : String) : Bool :=
  match getVersion m.versions tag with
  | none => false
  | some info => strTruthy info.sha256

/-- Model of `loadManifest` (`generate-version-manifest.ts`): read the file and
`JSON.parse` it inside `try`; any failure falls to the `catch` branch, which
returns `{ updated_at: new Date().toISOString(), versions: {} }`. -/
def loadManifest (readResult : Option String)
    (parse : String → Option VersionManifest) (now : String) : VersionManifest :=
  match readResult with
  | none => { updated_at := now, versions := [] }
  | some content =>
    match parse content with
    | none => { updated_at := now, versions := [] }
    | some m => m

/-- Model of `saveManifest` (`generate-version-manifest.ts`): sets
`manifest.updated_at = new Date().toISOString()` and writes the manifest to
disk; the written value is the returned one. -/
def saveManifest (now : String) (m : VersionManifest) : VersionManifest :=
  { m with updated_at := now }

/-- A Canton release candidate (`CantonRelease` in
`generate-version-manifest.ts`). -/
structure CantonRelease where
  cantonVersion : String
  damlTag : String
  downloadUrl : String
  isPrerelease : Bool
  publishedAt : String
  htmlUrl : String
deriving Repr, DecidableEq

/-- State threaded through the `generateManifest` loop: the in-memory manifest,
the `newVersions` and `skippedVersions` counters, and the successive manifest
values written to disk by `saveManifest` (in write order). -/
structure SyncState where
  manifest : VersionManifest
  newVersions : Nat
  skippedVersions : Nat
  saves : List VersionManifest
deriving Repr, DecidableEq

/-- One iteration of the `for (const release of topReleases)` loop of
`generateManifest`:
  * if `manifest.versions[release.damlTag]?.sha256` is truthy, count skipped;
  * else compute the digest (`calculateSha256`); when it throws, the `catch`
    only logs and the loop continues with an unchanged state;
  * on success, merge the entry, bump `newVersions`, and save immediately. -/
def syncStep (hash : String → Option String) (now : String)
    (st : SyncState) (release : CantonRelease) : SyncState :=
  if hasCachedDigest st.manifest release.damlTag then
    { st with skippedVersions := st.skippedVersions + 1 }
  else
    match hash release.downloadUrl with
    | none => st
    | some sha256 =>
      let info : VersionInfo :=
        { canton_version := release.cantonVersion
          download_url := release.downloadUrl
          sha256 := some sha256
          is_prerelease := release.isPrerelease
          published_at := release.publishedAt }
      let saved := saveManifest now
        { st.manifest with versions := setVersion st.manifest.versions release.damlTag info }
      { manifest := saved
        newVersions := st.newVersions + 1
        skippedVersions := st.skippedVersions
        saves := st.saves ++ [saved] }

/-- Model of `generateManifest(limit)` (`generate-version-manifest.ts`), from the point
where the manifest and the release list are in hand: process
`releases.slice(0, limit)` with `syncStep`, starting from the loaded manifest
and zeroed counters; the summary lines at the end only print and do not save. -/
def generateManifest (hash : String → Option String) (now : String)
    (manifest0 : VersionManifest) (releases : List CantonRelease) (limit : Nat) : SyncState :=
  (releases.take limit).foldl (syncStep hash now)
    { manifest := manifest0, newVersions := 0, skippedVersions := 0, saves := [] }

/-- An asset descriptor of the GitHub release API (`assets` entries in
`getAllCantonVersions`). -/
structure GitHubAsset where
  name : String
  browser_download_url : String
deriving Repr, DecidableEq

/-- A release object of the GitHub release API (`GitHubRelease` in
`getAllCantonVersions`). -/
structure GitHubRelease where
  tag_name : String
  prerelease : Bool
  published_at : String
  html_url : String
  assets : List GitHubAsset
deriving Repr, DecidableEq

/-- If `pat` is a prefix of `s`, return the remainder of `s` after it. -/
def stripPrefixChars : List Char → List Char → Option (List Char)
  | [], s => some s
  | _ :: _, [] => none
  | p :: ps, c :: cs => if p = c then stripPrefixChars ps cs else none

/-- Model of `s.includes(pat)` on strings of characters: `pat` occurs somewhere in `s`. -/
def containsSub (s pat : List Char) : Bool :=
  match s with
  | [] => pat.isEmpty
  | _ :: cs => (stripPrefixChars pat s).isSome || containsSub cs pat

/-- The asset filter of `getAllCantonVersions`:
`asset.name.includes("canton-open-source") && asset.name.endsWith(".tar.gz")`. -/
def isCantonAsset (a : GitHubAsset) : Bool :=
  containsSub a.name.data "canton-open-source".data &&
    ".tar.gz".data.isSuffixOf a.name.data

/-- The release filter of `getAllCantonVersions`:
`release.assets?.some(isCantonAsset)`. -/
def hasCantonAsset (r : GitHubRelease) : Bool :=
  r.assets.any isCantonAsset

/-- Last position `j ≥ 1` in `rest` at which `suf` starts (the greedy group
`(.+)` of the extraction regex must keep at least one character). -/
def lastSufPos (suf rest : List Char) : Option Nat :=
  (List.range rest.length).foldl
    (fun acc j => if 1 ≤ j ∧ (stripPrefixChars suf (rest.drop j)).isSome then some j else acc)
    none

/-- First position of `s` at which the whole pattern
`canton-open-source-(.+)\.tar\.gz` can match: the literal head `pat` is a
prefix there and a `suf` occurrence follows at distance at least 1. -/
def matchStart (pat suf s : List Char) : Option Nat :=
  (List.range (s.length + 1)).find? (fun i =>
    (stripPrefixChars pat (s.drop i)).isSome &&
      (lastSufPos suf ((s.drop i).drop pat.length)).isSome)

/-- Model of `cantonAsset.name.replace(/canton-open-source-(.+)\.tar\.gz/, "$1")` in
`getAllCantonVersions`: replace the first (leftmost, greedy) match of the
regex with its capture group; when the regex does not match, the name is
returned unchanged. -/
def extractCantonVersion (name : String) : String :=
  let s := name.data
  let pat := "canton-open-source-".data
  let suf := ".tar.gz".data
  match matchStart pat suf s with
  | none => name
  | some i =>
    let rest := (s.drop i).drop pat.length
    match lastSufPos suf rest with
    | none => name
    | some j => String.mk (s.take i ++ rest.take j ++ rest.drop (j + suf.length))

/-- The `.map` body of `getAllCantonVersions`: pick the first qualifying asset
and build the `CantonRelease` record.  The `none` branch is unreachable for
releases that passed `hasCantonAsset` (the TS code dereferences the found
asset without a check and would throw there). -/
def toCantonRelease (r : GitHubRelease) : CantonRelease :=
  match r.assets.find? isCantonAsset with
  | some a =>
    { cantonVersion := extractCantonVersion a.name
      damlTag := r.tag_name
      downloadUrl := a.browser_download_url
      isPrerelease := r.prerelease
      publishedAt := r.published_at
      htmlUrl := r.html_url }
  | none =>
    { cantonVersion := ""
      damlTag := r.tag_name
      downloadUrl := ""
      isPrerelease := r.prerelease
      publishedAt := r.published_at
      htmlUrl := r.html_url }

/-- The sort comparator of `getAllCantonVersions`: `-1` when `a` is a
prerelease and `b` is not, `1` in the symmetric case, otherwise
`new Date(b.publishedAt).getTime() - new Date(a.publishedAt).getTime()`
(`time` is the date-parse oracle). -/
def releaseCompare (time : String → Int) (a b : CantonRelease) : Int :=
  if a.isPrerelease && !b.isPrerelease then -1
  else if !a.isPrerelease && b.isPrerelease then 1
  else time b.publishedAt - time a.publishedAt

/-- Relation stating `a` may be placed before `b` by the comparator: `releaseCompare ≤ 0`. -/
def releaseLE (time : String → Int) (a b : CantonRelease) : Prop :=
  releaseCompare time a b ≤ 0

instance (time : String → Int) : DecidableRel (releaseLE time) := fun a b =>
  inferInstanceAs (Decidable (releaseCompare time a b ≤ 0))

/-- Model of `getAllCantonVersions` (`generate-version-manifest.ts`), past the HTTP
fetch: filter the releases that carry a Canton asset, map them to
`CantonRelease` records, and sort with the comparator.  `Array.prototype.sort`
is a stable comparison sort; it is modelled by the (stable) insertion sort of
the comparator's "may precede" relation. -/
def getAllCantonVersions (time : String → Int) (releases : List GitHubRelease) :
    List CantonRelease :=
  ((releases.filter hasCantonAsset).map toCantonRelease).insertionSort (releaseLE time)

/-- Concrete date-parse oracle for the ordering scenario of C4. -/
def sampleTime : String → Int :=
  fun s => if s = "2024-03-03" then 3 else if s = "2024-02-02" then 2 else 1

/-- Concrete upstream release list for the ordering scenario of C4: `R1` is a
prerelease published latest, `R3` a stable release published in between, `R2`
a stable release published earliest; each carries one qualifying Canton
asset, and the input arrives unsorted. -/
def sampleReleases : List GitHubRelease :=
  [⟨"R2", false, "2024-01-01", "h2", [⟨"canton-open-source-1.0.0.tar.gz", "u2"⟩]⟩,
   ⟨"R1", true, "2024-03-03", "h1", [⟨"canton-open-source-3.0.0.tar.gz", "u1"⟩]⟩,
   ⟨"R3", false, "2024-02-02", "h3", [⟨"canton-open-source-2.0.0.tar.gz", "u3"⟩]⟩]

/-- One iteration body of the `verifyHashes` loop (`verify-sha256.ts`) fails
for an entry when the download throws (the `catch` branch) or when the
recomputed digest differs from the stored `info.sha256`
(`calculated === info.sha256` is false; comparing a string against an absent
field is false in JS). -/
def entryFails (hash : String → Option String) (p : String × VersionInfo) : Bool :=
  match hash p.2.download_url with
  | none => true
  | some calculated => !(p.2.sha256 == some calculated)

/-- One iteration of the `verifyHashes` loop acting on the `errors` counter:
recompute the digest of the entry's `download_url`; a thrown download
(`catch` branch) or a digest different from the stored `info.sha256`
increments `errors`, a matching digest leaves it unchanged. -/
def verifyStep (hash : String → Option String) (errors : Nat)
    (p : String × VersionInfo) : Nat :=
  match hash p.2.download_url with
  | none => errors + 1
  | some calculated => if p.2.sha256 == some calculated then errors else errors + 1

/-- The `errors` counter of `verifyHashes` (`verify-sha256.ts`): walk
`Object.entries(manifest.versions).slice(0, count)` and apply `verifyStep`,
continuing with the next entry whatever the outcome. -/
def verifyErrors (hash : String → Option String)
    (versions : List (String × VersionInfo)) (count : Nat) : Nat :=
  (versions.take count).foldl (verifyStep hash) 0

/-- The process exit code of `verifyHashes`: `1` via `process.exit(1)` when
`errors > 0`, otherwise the script ends normally with exit code `0`. -/
def verifyExitCode (hash : String → Option String)
    (versions : List (String × VersionInfo)) (count : Nat) : Nat :=
  if verifyErrors hash versions count > 0 then 1 else 0

/-- Model of `versionTag.replace(/^v/, "")` (used as `cleanVersion` in
`generate-versioned-formula.ts`): drop one leading `v` when present. -/
def stripLeadingV (s : String) : String :=
  if s.data.head? = some 'v' then String.mk s.data.tail else s

/-- Fuel-driven worker for global regex replacement of a literal pattern
(`s.replace(/pat/g, rep)`): scan left to right, replace every non-overlapping
occurrence, continue after the replaced region.  The fuel only bounds the
recursion depth; one character is consumed per step, so fuel `s.length`
is never exhausted for a non-empty pattern. -/
def replaceAllFuel (pat rep : List Char) : Nat → List Char → List Char
  | 0, s => s
  | _ + 1, [] => []
  | fuel + 1, c :: cs =>
    match stripPrefixChars pat (c :: cs) with
    | some rest => rep ++ replaceAllFuel pat rep fuel rest
    | none => c :: replaceAllFuel pat rep fuel cs

/-- Model of `s.replace(/pat/g, rep)` for a literal pattern. -/
def replaceAll (s pat rep : String) : String :=
  String.mk (replaceAllFuel pat.data rep.data s.data.length s.data)

/-- If a case-insensitive match of `pat` starts `s`, return the remainder. -/
def stripPrefixCIChars : List Char → List Char → Option (List Char)
  | [], s => some s
  | _ :: _, [] => none
  | p :: ps, c :: cs => if p.toLower = c.toLower then stripPrefixCIChars ps cs else none

/-- Fuel-driven worker for `s.replace(/pat/i, rep)`: replace only the first
case-insensitive occurrence of the literal pattern. -/
def replaceFirstCIFuel (pat rep : List Char) : Nat → List Char → List Char
  | 0, s => s
  | _ + 1, [] => []
  | fuel + 1, c :: cs =>
    match stripPrefixCIChars pat (c :: cs) with
    | some rest => rep ++ rest
    | none => c :: replaceFirstCIFuel pat rep fuel cs

/-- Model of `s.replace(/pat/i, rep)` for a literal pattern. -/
def replaceFirstCI (s pat rep : String) : String :=
  String.mk (replaceFirstCIFuel pat.data rep.data s.data.length s.data)

/-- Model of `sanitizeVersionForClass` (`generate-versioned-formula.ts`): strip a
leading `v`, remove all dots and hyphens, then capitalize the first
case-insensitive occurrence of the word `snapshot`. -/
def sanitizeVersionForClass (version : String) : String :=
  let cleaned := replaceAll (replaceAll (stripLeadingV version) "." "") "-" ""
  replaceFirstCI cleaned "snapshot" "Snapshot"

/-- Model of `generateFormula` (`generate-versioned-formula.ts`): compute the cleaned
version, the class suffix and the version-type label, then replace every
placeholder globally, in source order.  An absent `sha256` would render as the
string `"undefined"` (JS coercion in `String.replace`). -/
def generateFormula (template : String) (versionTag : String)
    (info : VersionInfo) (isLatest : Bool) : String :=
  let cleanVersion := stripLeadingV versionTag
  let classSuffix := if isLatest then "" else "AT" ++ sanitizeVersionForClass cleanVersion
  let versionType := if isLatest then "latest pre-release" else "version " ++ cleanVersion
  replaceAll (replaceAll (replaceAll (replaceAll (replaceAll (replaceAll (replaceAll
    (replaceAll (replaceAll template
      "{{CLASS_SUFFIX}}" classSuffix)
      "{{VERSION_TYPE}}" versionType)
      "{{DOWNLOAD_URL}}" info.download_url)
      "{{SHA256}}" (match info.sha256 with | some s => s | none => "undefined"))
      "{{VERSION}}" cleanVersion)
      "{{CANTON_VERSION}}" info.canton_version)
      "{{DAML_TAG}}" versionTag)
      "{{IS_PRERELEASE}}" (if info.is_prerelease then "Yes" else "No"))
      "{{RELEASE_TYPE}}" (if info.is_prerelease then "pre-release" else "stable")

/-- The normalization at the top of `generateVersionedFormula`: prepend `v`
unless the tag already starts with one (the conditional on
`versionTag.startsWith("v")`). -/
def normalizeTag (versionTag : String) : String :=
  if versionTag.data.head? = some 'v' then versionTag else "v" ++ versionTag

/-- The output of a formula-generation run: target file name and content. -/
structure FormulaOutput where
  filename : String
  content : String
deriving Repr, DecidableEq

/-- Model of `loadTemplate` (`generate-versioned-formula.ts`): a bare `readFile` with no
`try`/`catch`; a failed read propagates as an error and is fatal to the
workflow (`main` catches it and exits 1). -/
def loadTemplate (readResult : Option String) : Except String String :=
  match readResult with
  | none => Except.error "failed to read template"
  | some content => Except.ok content

/-- Model of `generateVersionedFormula` (`generate-versioned-formula.ts`), as a pure
function of manifest and template: normalize the tag, look it up, fail with
the not-found error when absent, else render with `isLatest = false` and
target `Formula/canton@{cleanVersion}.rb`.  (The interactive overwrite prompt
and the file write are outside the pure model.) -/
def generateVersionedFormula (manifest : VersionManifest) (template : String)
    (versionTag : String) : Except String FormulaOutput :=
  match getVersion manifest.versions (normalizeTag versionTag) with
  | none => Except.error ("Version " ++ normalizeTag versionTag ++ " not found in manifest")
  | some info =>
    Except.ok
      { filename := "canton@" ++ stripLeadingV (normalizeTag versionTag) ++ ".rb"
        content := generateFormula template (normalizeTag versionTag) info false }

/-- Definition following the words of the C7 spec scenario — "a suffix derived
by removing all `.` and `-` characters and capitalizing the word "snap" if
present" — stated only for comparison against the code's
`sanitizeVersionForClass`. -/
def specSnapSuffix (cleaned : String) : String :=
  replaceFirstCI (replaceAll (replaceAll cleaned "." "") "-" "") "snap" "Snap"

/-! ### Helper lemmas about the association-list operations -/

theorem getVersion_cons (p : String × VersionInfo) (ps : List (String × VersionInfo))
    (t : String) :
    getVersion (p :: ps) t = if p.1 = t then some p.2 else getVersion ps t := by
  by_cases hp : p.1 = t <;> simp [getVersion, List.find?_cons, hp]

theorem getVersion_eq_some_iff {vs : List (String × VersionInfo)} {t : String}
    {info : VersionInfo} (h : (vs.map Prod.fst).Nodup) :
    getVersion vs t = some info ↔ (t, info) ∈ vs := by
  induction vs with
  | nil => simp [getVersion]
  | cons p ps ih =>
    obtain ⟨p1, p2⟩ := p
    rw [List.map_cons, List.nodup_cons] at h
    obtain ⟨hnot, hnd⟩ := h
    by_cases hp : p1 = t
    · subst hp
      rw [getVersion_cons, if_pos rfl]
      constructor
      · intro h2
        injection h2 with h2
        rw [← h2]
        exact List.mem_cons_self _ _
      · intro hmem
        rcases List.mem_cons.1 hmem with heq | hmem2
        · rw [Prod.mk.injEq] at heq
          rw [heq.2]
        · exact absurd (List.mem_map_of_mem Prod.fst hmem2) hnot
    · rw [getVersion_cons, if_neg hp, ih hnd]
      constructor
      · exact fun hmem => List.mem_cons_of_mem _ hmem
      · intro hmem
        rcases List.mem_cons.1 hmem with heq | hmem2
        · rw [Prod.mk.injEq] at heq
          exact absurd heq.1.symm hp
        · exact hmem2

theorem getVersion_map_update {tag t : String} (vs : List (String × VersionInfo))
    (info : VersionInfo) (h : t ≠ tag) :
    getVersion (vs.map (fun p => if p.1 = tag then (tag, info) else p)) t
      = getVersion vs t := by
  induction vs with
  | nil => rfl
  | cons p ps ih =>
    by_cases hp : p.1 = tag
    · simp only [List.map_cons, if_pos hp]
      rw [getVersion_cons, getVersion_cons, if_neg (Ne.symm h), if_neg, ih]
      rw [hp]
      exact Ne.symm h
    · simp only [List.map_cons, if_neg hp]
      rw [getVersion_cons, getVersion_cons, ih]

theorem getVersion_append_single {tag t : String} (vs : List (String × VersionInfo))
    (info : VersionInfo) (h : t ≠ tag) :
    getVersion (vs ++ [(tag, info)]) t = getVersion vs t := by
  induction vs with
  | nil =>
    simp only [List.nil_append]
    rw [getVersion_cons, if_neg (Ne.symm h)]
  | cons p ps ih =>
    simp only [List.cons_append]
    rw [getVersion_cons, getVersion_cons, ih]

theorem getVersion_setVersion_ne {tag t : String} (vs : List (String × VersionInfo))
    (info : VersionInfo) (h : t ≠ tag) :
    getVersion (setVersion vs tag info) t = getVersion vs t := by
  unfold setVersion
  by_cases hany : vs.any (fun p => p.1 = tag)
  · rw [if_pos hany]
    exact getVersion_map_update vs info h
  · rw [if_neg hany]
    exact getVersion_append_single vs info h

/-! ### C5 — semantics of the cached-check `has(tag)` -/

/-- C5: the cached-check used by the sync loop
(`manifest.versions[release.damlTag]?.sha256` in `generateManifest`) returns
`true` iff the manifest has an entry for the tag and that entry's `sha256`
field is set (to a non-empty digest string, JS truthiness); a tag absent from
the manifest, or present with an absent or empty digest, counts as not cached.
The manifest's keys are assumed distinct, as they are for any JS object. -/
theorem hasCachedDigest_iff_entry_with_digest (m : VersionManifest) (t : String)
    (h : (m.versions.map Prod.fst).Nodup) :
    hasCachedDigest m t = true
      ↔ ∃ info, (t, info) ∈ m.versions ∧ ∃ s, info.sha256 = some s ∧ s ≠ "" := by
  cases hv : getVersion m.versions t with
  | none =>
    simp only [hasCachedDigest, hv]
    constructor
    · intro htr
      simp at htr
    · rintro ⟨info, hmem, -⟩
      rw [(getVersion_eq_some_iff h).2 hmem] at hv
      simp at hv
  | some info =>
    have hmem := (getVersion_eq_some_iff h).1 hv
    simp only [hasCachedDigest, hv]
    constructor
    · intro htr
      refine ⟨info, hmem, ?_⟩
      cases hs : info.sha256 with
      | none => rw [hs] at htr; simp [strTruthy] at htr
      | some s =>
        refine ⟨s, rfl, ?_⟩
        rw [hs] at htr
        simpa [strTruthy] using htr
    · rintro ⟨info', hmem', s, hs, hne⟩
      have h2 : getVersion m.versions t = some info' := (getVersion_eq_some_iff h).2 hmem'
      rw [hv] at h2
      injection h2 with h2
      subst h2
      simp [hs, strTruthy, hne]

/-- Witness for C5 on a concrete manifest holding one cached entry. -/
theorem hasCachedDigest_iff_entry_with_digest_witness :
    (((⟨"t0", [("v1.0.0", ⟨"1.0.0", "u", some "abc", false, "p"⟩),
        ("v2.0.0", ⟨"2.0.0", "u2", none, true, "q"⟩)]⟩ :
        VersionManifest).versions.map Prod.fst).Nodup)
    ∧ (hasCachedDigest
        ⟨"t0", [("v1.0.0", ⟨"1.0.0", "u", some "abc", false, "p"⟩),
          ("v2.0.0", ⟨"2.0.0", "u2", none, true, "q"⟩)]⟩ "v1.0.0" = true
        ↔ ∃ info, ("v1.0.0", info) ∈
            (⟨"t0", [("v1.0.0", ⟨"1.0.0", "u", some "abc", false, "p"⟩),
              ("v2.0.0", ⟨"2.0.0", "u2", none, true, "q"⟩)]⟩ :
              VersionManifest).versions
            ∧ ∃ s, info.sha256 = some s ∧ s ≠ "") :=
  ⟨by decide,
    hasCachedDigest_iff_entry_with_digest
      ⟨"t0", [("v1.0.0", ⟨"1.0.0", "u", some "abc", false, "p"⟩),
        ("v2.0.0", ⟨"2.0.0", "u2", none, true, "q"⟩)]⟩ "v1.0.0" (by decide)⟩

/-! ### C8 — manifest load is lenient, template load is fatal -/

/-- C8: `loadManifest` returns the empty manifest (no entries, `updated_at`
freshly stamped) when the file read fails or the content does not parse, and
returns the parsed manifest otherwise — it never propagates an error (its
result type is a plain manifest).  `loadTemplate`, by contrast, surfaces a
failed read as an error, fatal to the rendering workflow. -/
theorem loadManifest_lenient_loadTemplate_fatal
    (parse : String → Option VersionManifest) (now : String) :
    loadManifest none parse now = ⟨now, []⟩
    ∧ (∀ c, parse c = none → loadManifest (some c) parse now = ⟨now, []⟩)
    ∧ (∀ c m, parse c = some m → loadManifest (some c) parse now = m)
    ∧ (∃ e, loadTemplate none = Except.error e)
    ∧ (∀ t, loadTemplate (some t) = Except.ok t) := by
  refine ⟨rfl, ?_, ?_, ⟨_, rfl⟩, fun t => rfl⟩
  · intro c hc
    simp [loadManifest, hc]
  · intro c m hc
    simp [loadManifest, hc]

/-- Witness for C8: a missing manifest file and an unparsable manifest file
both load as the empty manifest. -/
theorem loadManifest_lenient_loadTemplate_fatal_witness :
    loadManifest none (fun _ => none) "NOW" = ⟨"NOW", []⟩
    ∧ ((fun _ => (none : Option VersionManifest)) "not json" = none
        ∧ loadManifest (some "not json") (fun _ => none) "NOW" = ⟨"NOW", []⟩) :=
  ⟨(loadManifest_lenient_loadTemplate_fatal (fun _ => none) "NOW").1,
    rfl, (loadManifest_lenient_loadTemplate_fatal (fun _ => none) "NOW").2.1 "not json" rfl⟩

/-! ### C9 — version cleaning is not idempotent in general -/

/-- C9 counterexample: cleaning strips exactly one leading `v`, so on the tag
`"vv1.0.0"` a second cleaning strips a second `v` — `clean (clean s) ≠ clean s`
at this input, refuting idempotence for every string. -/
theorem stripLeadingV_not_idempotent_on_vv :
    stripLeadingV (stripLeadingV "vv1.0.0") ≠ stripLeadingV "vv1.0.0" := by decide

/-- C9 amended: version cleaning is a no-op on every string that does not
start with `'v'`; consequently cleaning is idempotent on every string whose
cleaned form no longer starts with `'v'` (it fails only on tags beginning
with a doubled `"vv"`). -/
theorem stripLeadingV_noop_without_v (s : String) :
    (s.data.head? ≠ some 'v' → stripLeadingV s = s)
    ∧ ((stripLeadingV s).data.head? ≠ some 'v' →
        stripLeadingV (stripLeadingV s) = stripLeadingV s) := by
  have key : ∀ u : String, u.data.head? ≠ some 'v' → stripLeadingV u = u := by
    intro u hu
    unfold stripLeadingV
    rw [if_neg hu]
  exact ⟨key s, key (stripLeadingV s)⟩

/-- Witness for C9 amended at `"v1.0.0"`, whose cleaned form `"1.0.0"` no
longer starts with `'v'`. -/
theorem stripLeadingV_noop_without_v_witness :
    ((stripLeadingV "v1.0.0").data.head? ≠ some 'v')
    ∧ stripLeadingV (stripLeadingV "v1.0.0") = stripLeadingV "v1.0.0" :=
  ⟨by decide, (stripLeadingV_noop_without_v "v1.0.0").2 (by decide)⟩

/-! ### C10 — tag normalization of the generate-one workflow -/

theorem data_v_append (s : String) : ("v" ++ s).data = 'v' :: s.data := by
  rw [String.data_append]
  rfl

theorem stripLeadingV_v_append (s : String) : stripLeadingV ("v" ++ s) = s := by
  unfold stripLeadingV
  rw [data_v_append]
  simp

/-- C10: `generateVersionedFormula` normalizes its tag argument by prepending
`v` when it is missing, before the manifest lookup and the filename
derivation; so for a tag `s` not starting with `v`, running it with `s` and
with `"v" ++ s` is the same computation, and whenever it succeeds the output
filename is `canton@s.rb`. -/
theorem generateVersionedFormula_normalizes_tag (m : VersionManifest)
    (template : String) (s : String) (h : s.data.head? ≠ some 'v') :
    generateVersionedFormula m template s
        = generateVersionedFormula m template ("v" ++ s)
    ∧ normalizeTag s = "v" ++ s
    ∧ ((generateVersionedFormula m template s).toOption.map FormulaOutput.filename).getD
        ("canton@" ++ s ++ ".rb") = "canton@" ++ s ++ ".rb" := by
  have hn1 : normalizeTag s = "v" ++ s := by
    unfold normalizeTag
    rw [if_neg h]
  have hn2 : normalizeTag ("v" ++ s) = "v" ++ s := by
    unfold normalizeTag
    rw [data_v_append]
    simp
  have heq : generateVersionedFormula m template s
      = generateVersionedFormula m template ("v" ++ s) := by
    unfold generateVersionedFormula
    rw [hn1, hn2]
  refine ⟨heq, hn1, ?_⟩
  unfold generateVersionedFormula
  rw [hn1]
  cases hv : getVersion m.versions ("v" ++ s) with
  | none => rfl
  | some info =>
    show "canton@" ++ stripLeadingV ("v" ++ s) ++ ".rb" = "canton@" ++ s ++ ".rb"
    rw [stripLeadingV_v_append]

/-- Witness for C10 at the concrete tag `"1.0.0"` against a one-entry
manifest. -/
theorem generateVersionedFormula_normalizes_tag_witness :
    (("1.0.0" : String).data.head? ≠ some 'v')
    ∧ (generateVersionedFormula ⟨"t0", [("v1.0.0", ⟨"1.0.0", "u", some "h", false, "p"⟩)]⟩
          "class {{CLASS_SUFFIX}} {{VERSION}}" "1.0.0"
        = generateVersionedFormula ⟨"t0", [("v1.0.0", ⟨"1.0.0", "u", some "h", false, "p"⟩)]⟩
          "class {{CLASS_SUFFIX}} {{VERSION}}" ("v" ++ "1.0.0")
      ∧ normalizeTag "1.0.0" = "v" ++ "1.0.0"
      ∧ ((generateVersionedFormula ⟨"t0", [("v1.0.0", ⟨"1.0.0", "u", some "h", false, "p"⟩)]⟩
            "class {{CLASS_SUFFIX}} {{VERSION}}" "1.0.0").toOption.map
            FormulaOutput.filename).getD ("canton@" ++ "1.0.0" ++ ".rb")
          = "canton@" ++ "1.0.0" ++ ".rb") :=
  ⟨by decide,
    generateVersionedFormula_normalizes_tag
      ⟨"t0", [("v1.0.0", ⟨"1.0.0", "u", some "h", false, "p"⟩)]⟩
      "class {{CLASS_SUFFIX}} {{VERSION}}" "1.0.0" (by decide)⟩

/-! ### C7 — class-suffix rendering -/

/-- C7 counterexample: rendering `class {{CLASS_SUFFIX}}` with
`isLatest = false` and cleaned version `1.2.3-snap.1` yields
`class AT123snap1` — the code capitalizes only the word `snapshot`
(`/snapshot/i`), so the word `snap` stays lowercase, while the claim's
derivation ("capitalizing the word snap if present") would give `123Snap1`. -/
theorem classSuffix_snap_left_uncapitalized :
    generateFormula "class {{CLASS_SUFFIX}}" "1.2.3-snap.1"
        ⟨"1.2.3", "url", some "h", true, "p"⟩ false = "class AT123snap1"
    ∧ specSnapSuffix "1.2.3-snap.1" = "123Snap1"
    ∧ sanitizeVersionForClass "1.2.3-snap.1" ≠ specSnapSuffix "1.2.3-snap.1" := by
  decide

/-- C7 amended: with `isLatest = true` the class suffix is empty (the template
`class {{CLASS_SUFFIX}}` renders to `class `); with `isLatest = false` the
suffix comes from the cleaned version by removing all `.` and `-` characters
and capitalizing the word `snapshot` (case-insensitively) if present — the
word `snap` alone is not capitalized, so cleaned version `1.2.3-snap.1`
renders to `class AT123snap1`. -/
theorem classSuffix_rendering_scenarios :
    generateFormula "class {{CLASS_SUFFIX}}" "v1.0.0"
        ⟨"1.0.0", "url", some "h", true, "p"⟩ true = "class "
    ∧ generateFormula "class {{CLASS_SUFFIX}}" "1.2.3-snap.1"
        ⟨"1.2.3", "url", some "h", true, "p"⟩ false = "class AT123snap1"
    ∧ sanitizeVersionForClass "1.2.3-snapshot.1" = "123Snapshot1" := by
  decide

/-! ### C6 — hash verification evaluates every entry and exit reflects errors -/

theorem verifyStep_eq_add_indicator (hash : String → Option String) (n : Nat)
    (p : String × VersionInfo) :
    verifyStep hash n p = n + (if entryFails hash p then 1 else 0) := by
  unfold verifyStep entryFails
  cases hh : hash p.2.download_url with
  | none => simp
  | some c =>
    cases hb : p.2.sha256 == some c with
    | true => simp [hb]
    | false => simp [hb]

theorem verifyErrors_foldl_eq_countP (hash : String → Option String)
    (l : List (String × VersionInfo)) (n : Nat) :
    l.foldl (verifyStep hash) n = n + l.countP (entryFails hash) := by
  induction l generalizing n with
  | nil => simp
  | cons p ps ih =>
    rw [List.foldl_cons, ih, List.countP_cons, verifyStep_eq_add_indicator]
    omega

/-- C6: `verifyHashes(count)` recomputes the digest of each of the first
`count` manifest entries and compares it with the stored one; its error count
equals the number of failing entries among all of the first `count`
(a mismatch or a download failure never stops the loop, every remaining entry
is still evaluated), and the process exit code is `1` iff at least one entry
mismatched or failed, `0` iff none did. -/
theorem verify_evaluates_all_and_exit_reflects_errors (hash : String → Option String)
    (versions : List (String × VersionInfo)) (count : Nat) :
    verifyErrors hash versions count = (versions.take count).countP (entryFails hash)
    ∧ (verifyExitCode hash versions count = 1
        ↔ ∃ p ∈ versions.take count, entryFails hash p = true)
    ∧ (verifyExitCode hash versions count = 0
        ↔ ∀ p ∈ versions.take count, entryFails hash p = false) := by
  have herr : verifyErrors hash versions count
      = (versions.take count).countP (entryFails hash) := by
    unfold verifyErrors
    rw [verifyErrors_foldl_eq_countP]
    omega
  refine ⟨herr, ?_, ?_⟩
  · unfold verifyExitCode
    rw [herr]
    by_cases hpos : 0 < (versions.take count).countP (entryFails hash)
    · exact iff_of_true (by simp [hpos]) (List.countP_pos_iff.1 hpos)
    · refine iff_of_false (by simp [hpos]) ?_
      rintro ⟨p, hp, hf⟩
      exact hpos (List.countP_pos_iff.2 ⟨p, hp, hf⟩)
  · unfold verifyExitCode
    rw [herr]
    by_cases hpos : 0 < (versions.take count).countP (entryFails hash)
    · refine iff_of_false (by simp [hpos]) ?_
      intro hall
      obtain ⟨p, hp, hf⟩ := List.countP_pos_iff.1 hpos
      rw [hall p hp] at hf
      cases hf
    · have h0 : (versions.take count).countP (entryFails hash) = 0 := by omega
      refine iff_of_true (by simp [hpos]) ?_
      intro p hp
      have := (List.countP_eq_zero.1 h0) p hp
      simpa using this

/-! ### C1, C2, C3 — the manifest synchronization loop -/

theorem hasCachedDigest_congr {m m' : VersionManifest} (t : String)
    (h : getVersion m.versions t = getVersion m'.versions t) :
    hasCachedDigest m t = hasCachedDigest m' t := by
  unfold hasCachedDigest
  rw [h]

theorem syncStep_cases (hash : String → Option String) (now : String)
    (st : SyncState) (r : CantonRelease) :
    syncStep hash now st r = { st with skippedVersions := st.skippedVersions + 1 }
    ∨ syncStep hash now st r = st
    ∨ ∃ info,
        hasCachedDigest st.manifest r.damlTag = false
        ∧ syncStep hash now st r =
            { manifest := ⟨now, setVersion st.manifest.versions r.damlTag info⟩
              newVersions := st.newVersions + 1
              skippedVersions := st.skippedVersions
              saves := st.saves ++ [⟨now, setVersion st.manifest.versions r.damlTag info⟩] } := by
  unfold syncStep
  by_cases hc : hasCachedDigest st.manifest r.damlTag = true
  · rw [if_pos hc]
    exact Or.inl rfl
  · rw [if_neg hc]
    cases hh : hash r.downloadUrl with
    | none => exact Or.inr (Or.inl rfl)
    | some d =>
      refine Or.inr (Or.inr
        ⟨⟨r.cantonVersion, r.downloadUrl, some d, r.isPrerelease, r.publishedAt⟩, ?_, rfl⟩)
      simpa using hc

theorem syncStep_preserves_cached (hash : String → Option String) (now : String)
    (st : SyncState) (r : CantonRelease) (t : String)
    (h : hasCachedDigest st.manifest t = true) :
    getVersion (syncStep hash now st r).manifest.versions t
      = getVersion st.manifest.versions t
    ∧ hasCachedDigest (syncStep hash now st r).manifest t = true := by
  rcases syncStep_cases hash now st r with hcase | hcase | ⟨info, hnc, hcase⟩
  · rw [hcase]
    exact ⟨rfl, h⟩
  · rw [hcase]
    exact ⟨rfl, h⟩
  · have hne : t ≠ r.damlTag := by
      intro heq
      rw [heq, hnc] at h
      cases h
    rw [hcase]
    have hg : getVersion (setVersion st.manifest.versions r.damlTag info) t
        = getVersion st.manifest.versions t := getVersion_setVersion_ne _ _ hne
    refine ⟨hg, ?_⟩
    rw [hasCachedDigest_congr t hg]
    exact h

theorem syncLoop_preserves_cached (hash : String → Option String) (now : String)
    (l : List CantonRelease) (st : SyncState) (t : String)
    (h : hasCachedDigest st.manifest t = true) :
    getVersion (l.foldl (syncStep hash now) st).manifest.versions t
      = getVersion st.manifest.versions t
    ∧ hasCachedDigest (l.foldl (syncStep hash now) st).manifest t = true := by
  induction l generalizing st with
  | nil => exact ⟨rfl, h⟩
  | cons r rs ih =>
    rw [List.foldl_cons]
    obtain ⟨h1, h2⟩ := syncStep_preserves_cached hash now st r t h
    obtain ⟨h3, h4⟩ := ih (syncStep hash now st r) h2
    exact ⟨h3.trans h1, h4⟩

theorem syncLoop_all_cached (hash : String → Option String) (now : String)
    (l : List CantonRelease) (st : SyncState)
    (h : ∀ r ∈ l, hasCachedDigest st.manifest r.damlTag = true) :
    l.foldl (syncStep hash now) st
      = { st with skippedVersions := st.skippedVersions + l.length } := by
  induction l generalizing st with
  | nil => cases st; simp
  | cons r rs ih =>
    rw [List.foldl_cons]
    have hstep : syncStep hash now st r
        = { st with skippedVersions := st.skippedVersions + 1 } := by
      unfold syncStep
      rw [if_pos (h r (List.mem_cons_self r rs))]
    rw [hstep]
    have hall : ∀ r' ∈ rs,
        hasCachedDigest ({ st with skippedVersions := st.skippedVersions + 1 } :
          SyncState).manifest r'.damlTag = true :=
      fun r' hr' => h r' (List.mem_cons_of_mem _ hr')
    rw [ih _ hall]
    cases st
    simp only [SyncState.mk.injEq, List.length_cons, true_and, and_true]
    omega

/-- C1: a candidate whose tag is already cached with a digest is counted as
skipped and its manifest entry stays exactly as it was (the whole theorem is
parametric in the digest oracle `hash`, so the digest of a cached candidate is
never recomputed and cannot influence the result); in particular a sync in
which every processed candidate is cached reports `newVersions = 0`,
`skippedVersions` equal to the number processed, leaves the in-memory manifest
untouched and performs no save, so the persisted manifest file is unchanged. -/
theorem cached_candidates_skipped_and_unchanged (hash : String → Option String)
    (now : String) (manifest0 : VersionManifest) (releases : List CantonRelease)
    (limit : Nat) :
    (∀ t, hasCachedDigest manifest0 t = true →
        getVersion (generateManifest hash now manifest0 releases limit).manifest.versions t
          = getVersion manifest0.versions t)
    ∧ ((∀ r ∈ releases.take limit, hasCachedDigest manifest0 r.damlTag = true) →
        generateManifest hash now manifest0 releases limit
          = { manifest := manifest0, newVersions := 0,
              skippedVersions := (releases.take limit).length, saves := [] }) := by
  constructor
  · intro t ht
    unfold generateManifest
    exact (syncLoop_preserves_cached hash now (releases.take limit)
      ⟨manifest0, 0, 0, []⟩ t ht).1
  · intro hall
    unfold generateManifest
    rw [syncLoop_all_cached hash now (releases.take limit) ⟨manifest0, 0, 0, []⟩ hall]
    simp

/-- Witness for C1: a manifest caching `v1.0.0`, upstream returning only
`v1.0.0`, limit 1, and a digest oracle that always fails — the cached entry is
untouched and the run reports skipped 1, added 0, no save. -/
theorem cached_candidates_skipped_and_unchanged_witness :
    (hasCachedDigest ⟨"t0", [("v1.0.0", ⟨"1.0.0", "u", some "abc", false, "p"⟩)]⟩
        "v1.0.0" = true)
    ∧ (∀ r ∈ ([⟨"1.0.0", "v1.0.0", "u", false, "p", "h"⟩] :
          List CantonRelease).take 1,
        hasCachedDigest ⟨"t0", [("v1.0.0", ⟨"1.0.0", "u", some "abc", false, "p"⟩)]⟩
          r.damlTag = true)
    ∧ getVersion (generateManifest (fun _ => none) "T"
          ⟨"t0", [("v1.0.0", ⟨"1.0.0", "u", some "abc", false, "p"⟩)]⟩
          [⟨"1.0.0", "v1.0.0", "u", false, "p", "h"⟩] 1).manifest.versions "v1.0.0"
        = getVersion
          (⟨"t0", [("v1.0.0", ⟨"1.0.0", "u", some "abc", false, "p"⟩)]⟩ :
            VersionManifest).versions "v1.0.0"
    ∧ generateManifest (fun _ => none) "T"
          ⟨"t0", [("v1.0.0", ⟨"1.0.0", "u", some "abc", false, "p"⟩)]⟩
          [⟨"1.0.0", "v1.0.0", "u", false, "p", "h"⟩] 1
        = { manifest := ⟨"t0", [("v1.0.0", ⟨"1.0.0", "u", some "abc", false, "p"⟩)]⟩,
            newVersions := 0, skippedVersions := 1, saves := [] } :=
  ⟨by decide, by decide,
    (cached_candidates_skipped_and_unchanged (fun _ => none) "T"
        ⟨"t0", [("v1.0.0", ⟨"1.0.0", "u", some "abc", false, "p"⟩)]⟩
        [⟨"1.0.0", "v1.0.0", "u", false, "p", "h"⟩] 1).1 "v1.0.0" (by decide),
    (cached_candidates_skipped_and_unchanged (fun _ => none) "T"
        ⟨"t0", [("v1.0.0", ⟨"1.0.0", "u", some "abc", false, "p"⟩)]⟩
        [⟨"1.0.0", "v1.0.0", "u", false, "p", "h"⟩] 1).2 (by decide)⟩

theorem syncLoop_saves_invariant (hash : String → Option String) (now : String)
    (l : List CantonRelease) (st : SyncState) :
    ∃ d : List VersionManifest,
      (l.foldl (syncStep hash now) st).saves = st.saves ++ d
      ∧ (l.foldl (syncStep hash now) st).newVersions = st.newVersions + d.length
      ∧ (d = [] → (l.foldl (syncStep hash now) st).manifest = st.manifest)
      ∧ (d ≠ [] → d.getLast? = some (l.foldl (syncStep hash now) st).manifest) := by
  induction l generalizing st with
  | nil =>
    exact ⟨[], by simp, by simp, fun _ => rfl, fun hne => absurd rfl hne⟩
  | cons r rs ih =>
    rw [List.foldl_cons]
    rcases syncStep_cases hash now st r with hcase | hcase | ⟨info, -, hcase⟩
    · rw [hcase]
      exact ih { st with skippedVersions := st.skippedVersions + 1 }
    · rw [hcase]
      exact ih st
    · rw [hcase]
      obtain ⟨d, h1, h2, h3, h4⟩ :=
        ih { manifest := ⟨now, setVersion st.manifest.versions r.damlTag info⟩
             newVersions := st.newVersions + 1
             skippedVersions := st.skippedVersions
             saves := st.saves ++ [⟨now, setVersion st.manifest.versions r.damlTag info⟩] }
      dsimp only at h1 h2 h3 h4
      refine ⟨⟨now, setVersion st.manifest.versions r.damlTag info⟩ :: d, ?_, ?_, ?_, ?_⟩
      · rw [h1]
        simp
      · rw [h2, List.length_cons]
        omega
      · intro hcd
        exact absurd hcd (List.cons_ne_nil _ _)
      · intro _
        cases hd : d with
        | nil =>
          rw [hd] at h3
          rw [h3 rfl]
          rfl
        | cons e es =>
          rw [List.getLast?_cons_cons]
          rw [hd] at h4
          exact h4 (List.cons_ne_nil _ _)

/-- C2 counterexample: a completed sync run in which the single processed
candidate was already cached performs no save at all — `saves = []` although
the run completed — refuting "persists the manifest again on completion of
the run" (the code has no final `saveManifest` call; only each successful
addition saves). -/
theorem no_save_on_completion :
    (generateManifest (fun _ => none) "T"
        ⟨"t0", [("v1.0.0", ⟨"1.0.0", "u", some "abc", false, "p"⟩)]⟩
        [⟨"1.0.0", "v1.0.0", "u", false, "p", "h"⟩] 1).skippedVersions = 1
    ∧ (generateManifest (fun _ => none) "T"
        ⟨"t0", [("v1.0.0", ⟨"1.0.0", "u", some "abc", false, "p"⟩)]⟩
        [⟨"1.0.0", "v1.0.0", "u", false, "p", "h"⟩] 1).saves = [] := by
  decide

/-- C2 amended: the sync loop saves the manifest immediately after each
individual successful addition and only then — exactly one write per added
entry, no additional write on completion: a run with zero additions never
writes the file (and leaves the in-memory manifest untouched), and after a
run with additions the last write equals the final in-memory manifest, so an
interruption after any point loses none of the previously computed hashes. -/
theorem save_per_addition_and_no_final_save (hash : String → Option String)
    (now : String) (manifest0 : VersionManifest) (releases : List CantonRelease)
    (limit : Nat) :
    (generateManifest hash now manifest0 releases limit).saves.length
        = (generateManifest hash now manifest0 releases limit).newVersions
    ∧ ((generateManifest hash now manifest0 releases limit).newVersions = 0 →
        (generateManifest hash now manifest0 releases limit).manifest = manifest0
        ∧ (generateManifest hash now manifest0 releases limit).saves = [])
    ∧ ((generateManifest hash now manifest0 releases limit).newVersions ≠ 0 →
        (generateManifest hash now manifest0 releases limit).saves.getLast?
          = some (generateManifest hash now manifest0 releases limit).manifest) := by
  unfold generateManifest
  obtain ⟨d, h1, h2, h3, h4⟩ :=
    syncLoop_saves_invariant hash now (releases.take limit) ⟨manifest0, 0, 0, []⟩
  dsimp only at h1 h2 h3 h4
  rw [List.nil_append] at h1
  refine ⟨?_, ?_, ?_⟩
  · rw [h1, h2]
    omega
  · intro h0
    rw [h2] at h0
    have hd : d = [] := List.length_eq_zero.1 (by omega)
    refine ⟨h3 hd, ?_⟩
    rw [h1, hd]
  · intro hne
    have hd : d ≠ [] := by
      intro hd0
      rw [h2, hd0] at hne
      exact hne rfl
    rw [h1]
    exact h4 hd

/-- Witness for C2 amended on a run that adds one entry: one save, and the
saved value is the final manifest. -/
theorem save_per_addition_and_no_final_save_witness :
    (generateManifest (fun _ => some "abc") "T" ⟨"t0", []⟩
        [⟨"1.0.0", "v1.0.0", "u", false, "p", "h"⟩] 1).newVersions ≠ 0
    ∧ (generateManifest (fun _ => some "abc") "T" ⟨"t0", []⟩
          [⟨"1.0.0", "v1.0.0", "u", false, "p", "h"⟩] 1).saves.getLast?
        = some (generateManifest (fun _ => some "abc") "T" ⟨"t0", []⟩
          [⟨"1.0.0", "v1.0.0", "u", false, "p", "h"⟩] 1).manifest :=
  ⟨by decide,
    (save_per_addition_and_no_final_save (fun _ => some "abc") "T" ⟨"t0", []⟩
      [⟨"1.0.0", "v1.0.0", "u", false, "p", "h"⟩] 1).2.2 (by decide)⟩

/-- C3: when the digest computation of one candidate fails
(`calculateSha256` throws and the `catch` only logs), the loop state is
completely unchanged — counters, in-memory manifest and the list of persisted
writes, so every entry added before the failure stays durably saved and the
failed tag stays uncached — and processing the remaining candidates proceeds
exactly as if the failing candidate had not been there (no abort). -/
theorem digest_failure_continues_loop (hash : String → Option String)
    (now : String) (st : SyncState) (r : CantonRelease) (l2 : List CantonRelease)
    (h1 : hasCachedDigest st.manifest r.damlTag = false)
    (h2 : hash r.downloadUrl = none) :
    syncStep hash now st r = st
    ∧ (r :: l2).foldl (syncStep hash now) st = l2.foldl (syncStep hash now) st := by
  have hstep : syncStep hash now st r = st := by
    unfold syncStep
    rw [if_neg (by simp [h1]), h2]
  exact ⟨hstep, by rw [List.foldl_cons, hstep]⟩

/-- Witness for C3: mid-run state with one already-saved addition, an uncached
candidate whose download fails, and one further candidate to process. -/
theorem digest_failure_continues_loop_witness :
    hasCachedDigest
        (⟨⟨"T", [("v1.0.0", ⟨"1.0.0", "u", some "abc", false, "p"⟩)]⟩, 1, 0,
          [⟨"T", [("v1.0.0", ⟨"1.0.0", "u", some "abc", false, "p"⟩)]⟩]⟩ :
          SyncState).manifest
        (⟨"2.0.0", "v2.0.0", "u2", false, "p2", "h2"⟩ : CantonRelease).damlTag = false
    ∧ ((fun _ => (none : Option String)) "u2") = none
    ∧ (syncStep (fun _ => none) "T"
          ⟨⟨"T", [("v1.0.0", ⟨"1.0.0", "u", some "abc", false, "p"⟩)]⟩, 1, 0,
            [⟨"T", [("v1.0.0", ⟨"1.0.0", "u", some "abc", false, "p"⟩)]⟩]⟩
          ⟨"2.0.0", "v2.0.0", "u2", false, "p2", "h2"⟩
        = ⟨⟨"T", [("v1.0.0", ⟨"1.0.0", "u", some "abc", false, "p"⟩)]⟩, 1, 0,
            [⟨"T", [("v1.0.0", ⟨"1.0.0", "u", some "abc", false, "p"⟩)]⟩]⟩
      ∧ ([⟨"2.0.0", "v2.0.0", "u2", false, "p2", "h2"⟩,
            ⟨"3.0.0", "v3.0.0", "u3", true, "p3", "h3"⟩] :
            List CantonRelease).foldl (syncStep (fun _ => none) "T")
          ⟨⟨"T", [("v1.0.0", ⟨"1.0.0", "u", some "abc", false, "p"⟩)]⟩, 1, 0,
            [⟨"T", [("v1.0.0", ⟨"1.0.0", "u", some "abc", false, "p"⟩)]⟩]⟩
        = ([⟨"3.0.0", "v3.0.0", "u3", true, "p3", "h3"⟩] :
            List CantonRelease).foldl (syncStep (fun _ => none) "T")
          ⟨⟨"T", [("v1.0.0", ⟨"1.0.0", "u", some "abc", false, "p"⟩)]⟩, 1, 0,
            [⟨"T", [("v1.0.0", ⟨"1.0.0", "u", some "abc", false, "p"⟩)]⟩]⟩) :=
  ⟨by decide, rfl,
    digest_failure_continues_loop (fun _ => none) "T"
      ⟨⟨"T", [("v1.0.0", ⟨"1.0.0", "u", some "abc", false, "p"⟩)]⟩, 1, 0,
        [⟨"T", [("v1.0.0", ⟨"1.0.0", "u", some "abc", false, "p"⟩)]⟩]⟩
      ⟨"2.0.0", "v2.0.0", "u2", false, "p2", "h2"⟩
      [⟨"3.0.0", "v3.0.0", "u3", true, "p3", "h3"⟩] (by decide) rfl⟩

/-! ### C4 — ordering of the fetched release candidates -/

theorem releaseLE_iff (time : String → Int) (a b : CantonRelease) :
    releaseLE time a b
      ↔ (a.isPrerelease = true ∧ b.isPrerelease = false)
        ∨ (a.isPrerelease = b.isPrerelease
            ∧ time b.publishedAt ≤ time a.publishedAt) := by
  unfold releaseLE releaseCompare
  cases ha : a.isPrerelease <;> cases hb : b.isPrerelease <;> simp

theorem releaseLE_trans (time : String → Int) (a b c : CantonRelease)
    (hab : releaseLE time a b) (hbc : releaseLE time b c) : releaseLE time a c := by
  rw [releaseLE_iff] at hab hbc ⊢
  rcases hab with ⟨ha, hb⟩ | ⟨hab', hle1⟩ <;> rcases hbc with ⟨hb', hc⟩ | ⟨hbc', hle2⟩
  · rw [hb] at hb'
    exact Bool.noConfusion hb'
  · refine Or.inl ⟨ha, ?_⟩
    rw [← hbc']
    exact hb
  · refine Or.inl ⟨?_, hc⟩
    rw [hab']
    exact hb'
  · exact Or.inr ⟨hab'.trans hbc', le_trans hle2 hle1⟩

theorem releaseLE_total (time : String → Int) (a b : CantonRelease) :
    releaseLE time a b ∨ releaseLE time b a := by
  rw [releaseLE_iff, releaseLE_iff]
  cases ha : a.isPrerelease <;> cases hb : b.isPrerelease
  · rcases le_total (time b.publishedAt) (time a.publishedAt) with h | h
    · exact Or.inl (Or.inr ⟨rfl, h⟩)
    · exact Or.inr (Or.inr ⟨rfl, h⟩)
  · exact Or.inr (Or.inl ⟨rfl, rfl⟩)
  · exact Or.inl (Or.inl ⟨rfl, rfl⟩)
  · rcases le_total (time b.publishedAt) (time a.publishedAt) with h | h
    · exact Or.inl (Or.inr ⟨rfl, h⟩)
    · exact Or.inr (Or.inr ⟨rfl, h⟩)

/-- C4: the candidate list produced by `getAllCantonVersions` is ordered so
that no stable release ever precedes a prerelease (equivalently, every
prerelease precedes every stable release) and, within the same
prerelease/stable class, `publishedAt` is descending (newer first, per the
date-parse oracle `time`); on the concrete scenario — `R1` prerelease
published latest, `R2` stable published earliest, `R3` stable published in
between — the pipeline returns the order `R1, R3, R2`. -/
theorem releases_sorted_prerelease_first_newest_first (time : String → Int)
    (releases : List GitHubRelease) :
    List.Pairwise
      (fun a b => (b.isPrerelease = true → a.isPrerelease = true)
        ∧ (a.isPrerelease = b.isPrerelease →
            time b.publishedAt ≤ time a.publishedAt))
      (getAllCantonVersions time releases)
    ∧ (getAllCantonVersions sampleTime sampleReleases).map CantonRelease.damlTag
        = ["R1", "R3", "R2"] := by
  constructor
  · have hs : List.Sorted (releaseLE time) (getAllCantonVersions time releases) := by
      unfold getAllCantonVersions
      haveI : IsTrans CantonRelease (releaseLE time) :=
        ⟨fun a b c => releaseLE_trans time a b c⟩
      haveI : IsTotal CantonRelease (releaseLE time) :=
        ⟨fun a b => releaseLE_total time a b⟩
      exact List.sorted_insertionSort _ _
    refine hs.imp ?_
    intro a b hab
    rw [releaseLE_iff] at hab
    rcases hab with ⟨ha, hb⟩ | ⟨heq, hle⟩
    · refine ⟨fun _ => ha, fun hclass => ?_⟩
      rw [ha, hb] at hclass
      exact Bool.noConfusion hclass
    · exact ⟨fun hbt => heq.trans hbt, fun _ => hle⟩
  · decide

end Canton
